import Mathlib

/-!
Shallow embedding of the corrective-RAG document-extraction pipeline
(chunking engine, vector store, BM25, hybrid ranker, corrective retrieval
controller) and proofs of its specified properties.

Modelling conventions:
* JavaScript strings are modelled as `List Char` (`Str` below).  The source
  operates on UTF-16 code units; all inputs of interest are ASCII, where the
  two views coincide.
* JavaScript numbers are modelled by the NaN-carrying type `JsNum` (a
  rational or NaN) wherever the source can produce NaN — the average
  document length of an empty corpus, the zero-magnitude embedding
  normalisation, the similarity and ranking scores — and by plain `ℚ`
  where it cannot (counts, lengths, IDF values, `alpha`).  JavaScript's
  ±Infinity is not modelled: a zero denominator with a nonzero numerator
  occurs in no reachable state, as noted at each division.  The two
  transcendental functions used by the code (`Math.sqrt`, `Math.log`) are
  kept abstract as function parameters `sqrtA`, `logA : ℚ → ℚ`; no
  verified property depends on their values on positive arguments
  (`Math.sqrt 0 = 0` is taken as a hypothesis where NaN-ness matters).
* The external LLM transport is a parameter `llm : Str → Except Unit Str`
  mapping a prompt to either a failure (a thrown exception in the source)
  or the response text (`response.choices[0]?.message?.content || ''`).
-/

/-- Strings of the source program, modelled as lists of characters. -/
abbrev Str := List Char

/-- Coerce a Lean string literal to the model's string type. -/
def str (s : String) : Str := s.data

/-- The ASCII part of JavaScript's `\s` character class. -/
def isWsChar (c : Char) : Bool :=
  c = ' ' || c = '\t' || c = '\n' || c = '\r' || c = '\x0b' || c = '\x0c'

/-- JavaScript `String.prototype.trim` (ASCII whitespace). -/
def jsTrim (s : Str) : Str :=
  ((s.dropWhile isWsChar).reverse.dropWhile isWsChar).reverse

/-- JavaScript `String.prototype.toLowerCase` (ASCII). -/
def jsToLower (s : Str) : Str := s.map Char.toLower

/-- JavaScript `String.prototype.startsWith` with a string argument. -/
def jsStartsWith (s pat : Str) : Bool := pat.isPrefixOf s

/-- JavaScript `s.slice(0, n)` for a nonnegative `n`. -/
def jsTake (s : Str) (n : Nat) : Str := s.take n

/-- JavaScript `s.slice(n)` for a nonnegative `n`. -/
def jsDrop (s : Str) (n : Nat) : Str := s.drop n

/-- JavaScript `s.slice(-k)` for `k > 0` under the guard `s.length > k`:
the last `k` characters.  (`slice(-0)` is `slice(0)`, the whole string;
call sites model that case separately.) -/
def jsTakeRight (s : Str) (k : Nat) : Str := s.drop (s.length - k)

/-- Does `pat` occur as a contiguous substring of `s`?
Models JavaScript `String.prototype.includes`. -/
def jsIncludes (s pat : Str) : Bool :=
  match s with
  | [] => pat.isEmpty
  | _ :: rest => pat.isPrefixOf s || jsIncludes rest pat

/-- JavaScript `String.prototype.replace` with a *string* pattern:
replaces only the first occurrence. -/
def jsReplaceFirst (s pat repl : Str) : Str :=
  match s with
  | [] => []
  | c :: rest =>
    if pat.isPrefixOf s then repl ++ s.drop pat.length
    else c :: jsReplaceFirst rest pat repl

/-- JavaScript `s.split(sep)` for a single-character string separator
(used for `result.split('\n')`): splits at every occurrence, keeping
empty pieces. -/
def splitOnChar (sep : Char) (s : Str) : List Str :=
  match s with
  | [] => [[]]
  | c :: rest =>
    if c = sep then [] :: splitOnChar sep rest
    else
      match splitOnChar sep rest with
      | [] => [[c]]
      | piece :: pieces => (c :: piece) :: pieces

theorem length_dropWhile_le (p : Char → Bool) (l : Str) :
    (l.dropWhile p).length ≤ l.length := by
  induction l with
  | nil => simp
  | cons c rest ih =>
    by_cases h : p c
    · simp [List.dropWhile, h]; omega
    · simp [List.dropWhile, h]

/-- JavaScript `s.split(/\s+/)`: splits at maximal runs of whitespace,
keeping the (possibly empty) pieces at the boundaries.  `fuel > s.length`
suffices; recursion is structural on `fuel` so that concrete runs reduce. -/
def splitWsRuns (fuel : Nat) (s : Str) : List Str :=
  match fuel, s with
  | 0, s => [s]
  | _ + 1, [] => [[]]
  | fuel + 1, c :: rest =>
    if isWsChar c then [] :: splitWsRuns fuel (rest.dropWhile isWsChar)
    else
      match splitWsRuns fuel rest with
      | [] => [[c]]
      | piece :: pieces => (c :: piece) :: pieces

/-- JavaScript `s.split(/\n\n+/)`: splits at maximal runs of two or more
newline characters (`fuel > s.length` suffices). -/
def splitParaRuns (fuel : Nat) (s : Str) : List Str :=
  match fuel, s with
  | 0, s => [s]
  | fuel + 1, '\n' :: '\n' :: rest =>
    [] :: splitParaRuns fuel (rest.dropWhile (· = '\n'))
  | fuel + 1, c :: rest =>
    match splitParaRuns fuel rest with
    | [] => [[c]]
    | piece :: pieces => (c :: piece) :: pieces
  | _ + 1, [] => [[]]

/-- Is `c` a sentence-final punctuation mark (`[.!?]`)? -/
def isSentEnd (c : Char) : Bool := c = '.' || c = '!' || c = '?'

/-- JavaScript `s.split(/(?<=[.!?])\s+/)`: splits at maximal whitespace runs
immediately preceded by `.`, `!` or `?`; the punctuation stays with the
piece on its left (`fuel > s.length` suffices). -/
def splitSentRuns (fuel : Nat) (s : Str) : List Str :=
  match fuel, s with
  | 0, s => [s]
  | _ + 1, [] => [[]]
  | _ + 1, [c] => [[c]]
  | fuel + 1, c :: d :: rest =>
    if isSentEnd c && isWsChar d then
      [c] :: splitSentRuns fuel ((d :: rest).dropWhile isWsChar)
    else
      match splitSentRuns fuel (d :: rest) with
      | [] => [[c]]
      | piece :: pieces => (c :: piece) :: pieces

/-- Decimal digit character for `n < 10` (used to model JavaScript's
number-to-string conversion). -/
def digitChar10 (n : Nat) : Char :=
  match n with
  | 0 => '0' | 1 => '1' | 2 => '2' | 3 => '3' | 4 => '4'
  | 5 => '5' | 6 => '6' | 7 => '7' | 8 => '8' | _ => '9'

/-- Numeric value of a decimal digit character (junk `0` otherwise). -/
def charVal10 (c : Char) : Nat :=
  match c with
  | '0' => 0 | '1' => 1 | '2' => 2 | '3' => 3 | '4' => 4
  | '5' => 5 | '6' => 6 | '7' => 7 | '8' => 8 | '9' => 9
  | _ => 0

/-- Is `c` a decimal digit character? -/
def isDigit10 (c : Char) : Bool :=
  c = '0' || c = '1' || c = '2' || c = '3' || c = '4' ||
  c = '5' || c = '6' || c = '7' || c = '8' || c = '9'

/-- Decimal digits of `n`, most significant first (fuel-based; `fuel > n`
suffices). -/
def toDigits10 (fuel n : Nat) : Str :=
  match fuel with
  | 0 => []
  | fuel + 1 =>
    if n < 10 then [digitChar10 n]
    else toDigits10 fuel (n / 10) ++ [digitChar10 (n % 10)]

/-- JavaScript number-to-string conversion for a natural number
(template literals, string concatenation). -/
def natToStr (n : Nat) : Str := toDigits10 (n + 1) n

/-- JavaScript `parseInt` restricted to the shapes arising in the source:
parse the maximal leading run of decimal digits, failing (NaN) when there
is none.  (Sign handling and whitespace skipping never arise at the one
call site, `getChunkById`.) -/
def parseIntNat (s : Str) : Option Nat :=
  let digits := s.takeWhile isDigit10
  if digits.isEmpty then none
  else some (digits.foldl (fun a c => a * 10 + charVal10 c) 0)

theorem toDigits10_all_digit (fuel n : Nat) :
    ∀ c ∈ toDigits10 fuel n, isDigit10 c = true := by
  induction fuel generalizing n with
  | zero => simp [toDigits10]
  | succ fuel ih =>
    intro c hc
    simp only [toDigits10] at hc
    by_cases h : n < 10
    · simp [h] at hc
      subst hc
      interval_cases n <;> decide
    · simp [h] at hc
      rcases hc with hc | hc
      · exact ih (n / 10) c hc
      · subst hc
        have : n % 10 < 10 := Nat.mod_lt _ (by omega)
        interval_cases h : n % 10 <;> simp_all <;> decide

theorem toDigits10_foldl (fuel : Nat) : ∀ n a, n < fuel →
    (toDigits10 fuel n).foldl (fun a c => a * 10 + charVal10 c) a =
      a * 10 ^ (toDigits10 fuel n).length + n := by
  induction fuel with
  | zero => omega
  | succ fuel ih =>
    intro n a hn
    by_cases h : n < 10
    · simp only [toDigits10, if_pos h, List.foldl_cons, List.foldl_nil,
        List.length_cons, List.length_nil]
      have : charVal10 (digitChar10 n) = n := by interval_cases n <;> decide
      rw [this]
      ring
    · have hrec : n / 10 < fuel := by omega
      simp only [toDigits10, if_neg h, List.foldl_append, List.foldl_cons,
        List.foldl_nil, List.length_append, List.length_cons, List.length_nil]
      rw [ih (n / 10) a hrec]
      have hd : charVal10 (digitChar10 (n % 10)) = n % 10 := by
        have : n % 10 < 10 := Nat.mod_lt _ (by omega)
        interval_cases h : n % 10 <;> simp_all <;> decide
      rw [hd]
      have := Nat.div_add_mod n 10
      ring_nf
      omega

theorem toDigits10_ne_nil (fuel n : Nat) (h : n < fuel) :
    toDigits10 fuel n ≠ [] := by
  cases fuel with
  | zero => omega
  | succ fuel =>
    by_cases h10 : n < 10 <;> simp [toDigits10, h10]

/-- Decimal printing and `parseInt` round-trip. -/
theorem parseIntNat_natToStr (n : Nat) : parseIntNat (natToStr n) = some n := by
  unfold parseIntNat natToStr
  have hall := toDigits10_all_digit (n + 1) n
  have htw : (toDigits10 (n + 1) n).takeWhile isDigit10 = toDigits10 (n + 1) n :=
    List.takeWhile_eq_self_iff.mpr hall
  simp only [htw]
  have hne := toDigits10_ne_nil (n + 1) n (by omega)
  simp only [List.isEmpty_iff, hne, if_false, if_neg hne]
  have := toDigits10_foldl (n + 1) n 0 (by omega)
  simp only [Nat.zero_mul, Nat.zero_add] at this
  simp [this]

/-- `natToStr` contains only digit characters (in particular no `'c'`). -/
theorem natToStr_all_digit (n : Nat) : ∀ c ∈ natToStr n, isDigit10 c = true :=
  toDigits10_all_digit (n + 1) n

/-! ## Segmentation engine (advanced chunking module) -/

/-- Chunking configuration (`ChunkingConfig` in the source). -/
structure ChunkingConfig where
  minChunkSize : Nat
  maxChunkSize : Nat
  overlap : Nat
  deriving Repr, DecidableEq

/-- A document chunk (`Chunk` in the source). -/
structure Chunk where
  header : Str
  content : Str
  charCount : Nat
  containsTable : Bool
  deriving Repr, DecidableEq

/-- Newline characters (`[\n\r]` in the table pattern). -/
def isNl (c : Char) : Bool := c = '\n' || c = '\r'

/-- The character class `[-:\s|]` of a markdown table separator row. -/
def isSepChar (c : Char) : Bool := c = '-' || c = ':' || c = '|' || isWsChar c

/-- Parse one table row at the head of `s`: `\|[^\n]+\|` (or the separator
variant `\|[-:\s|]+\|` when `sepRow` is set) followed by `[\n\r]+`.
Returns the number of characters consumed.  (Rows are taken to end at the
first newline character; the source's `[^\n]` also admits `\r` inside a
row, which cannot arise in the newline-normalised inputs considered.) -/
def parseRow (sepRow : Bool) (s : Str) : Option (Nat × Str) :=
  let line := s.takeWhile (fun c => !(isNl c))
  let nls := (s.drop line.length).takeWhile isNl
  match line with
  | '|' :: mid =>
    if 2 ≤ mid.length && mid.getLast? == some '|' &&
        (!sepRow || mid.dropLast.all isSepChar) && 1 ≤ nls.length then
      some (line.length + nls.length, s.drop (line.length + nls.length))
    else none
  | _ => none

/-- Greedily parse the `(?:\|[^\n]+\|[\n\r]+)*` tail of data rows. -/
def parseDataRows (fuel : Nat) (s : Str) : Nat × Str :=
  match fuel with
  | 0 => (0, s)
  | fuel + 1 =>
    match parseRow false s with
    | none => (0, s)
    | some (n, r) =>
      let rec' := parseDataRows fuel r
      (n + rec'.1, rec'.2)

/-- Try to match the markdown table pattern
`\|[^\n]+\|[\n\r]+\|[-:\s|]+\|[\n\r]+(?:\|[^\n]+\|[\n\r]+)*`
at the head of `s`. -/
def parseTableAt (s : Str) : Option (Nat × Str) := do
  let (n1, r1) ← parseRow false s
  let (n2, r2) ← parseRow true r1
  let (nd, rd) := parseDataRows r2.length r2
  return (n1 + n2 + nd, rd)

/-- Scan `s` left to right for table matches (the `exec` loop of
`extractTables`), recording `(content, start, end)` for each. -/
def extractTablesFrom (fuel pos : Nat) (s : Str) : List (Str × Nat × Nat) :=
  match fuel with
  | 0 => []
  | fuel + 1 =>
    match s with
    | [] => []
    | _ :: tail =>
      match parseTableAt s with
      | some (n, rest) =>
        (s.take n, pos, pos + n) :: extractTablesFrom fuel (pos + n) rest
      | none => extractTablesFrom fuel (pos + 1) tail

/-- `extractTables` of the source: markdown tables with their character
ranges. -/
def extractTables (markdownText : Str) : List (Str × Nat × Nat) :=
  extractTablesFrom markdownText.length 0 markdownText

/-- `currentChunk.length > overlap ? currentChunk.slice(-overlap) : currentChunk`.
JavaScript `slice(-0)` is `slice(0)`, so with `overlap = 0` the *whole*
closed chunk is carried over. -/
def overlapOf (cur : Str) (overlap : Nat) : Str :=
  if cur.length > overlap then
    if overlap = 0 then cur else jsTakeRight cur overlap
  else cur

/-- One step of the greedy packing loop shared by the three granularities:
state is `(chunks, currentChunk)`; `join` is the separator inserted when
appending to a non-empty buffer (`"\n\n"` for paragraphs, `" "` for
sentences and words), `slack` the constant added in the size test (`2`
resp. `1`), and `onOversize` handles a unit that overflows an empty
buffer. -/
def packStep (maxSize overlap slack : Nat) (join : Str)
    (onOversize : List Str × Str → Str → List Str × Str)
    (st : List Str × Str) (unit : Str) : List Str × Str :=
  if st.2.length + unit.length + slack ≤ maxSize then
    (st.1, st.2 ++ (if st.2.isEmpty then [] else join) ++ unit)
  else if !st.2.isEmpty then
    (st.1 ++ [st.2], overlapOf st.2 overlap ++ join ++ unit)
  else onOversize st unit

/-- Final flush of the packing loop (`if (currentChunk) chunks.push(...)`). -/
def packFlush (st : List Str × Str) : List Str :=
  if st.2.isEmpty then st.1 else st.1 ++ [st.2]

/-- `recursiveChunkWithOverlap` of the source: split text into chunks of at
most `maxSize` characters (best effort), trying paragraph, then sentence,
then word boundaries, seeding each new chunk with the tail of the previous
one.  The source recurses without fuel; `fuel` bounds the recursion depth
(structurally, so that concrete runs reduce) and any value `> text.length`
is enough. -/
def recursiveChunkWithOverlap (fuel : Nat) (text : Str) (maxSize overlap : Nat) :
    List Str :=
  match fuel with
  | 0 => [text]
  | fuel + 1 =>
    if text.length ≤ maxSize then [text]
    else
      let paragraphs := splitParaRuns (text.length + 1) text
      if paragraphs.length > 1 then
        packFlush (paragraphs.foldl
          (packStep maxSize overlap 2 (str "\n\n") fun st para =>
            let sub := recursiveChunkWithOverlap fuel para maxSize overlap
            (st.1 ++ sub.dropLast, sub.getLast?.getD []))
          ([], []))
      else
        let sentences := splitSentRuns (text.length + 1) text
        if sentences.length > 1 then
          packFlush (sentences.foldl
            (packStep maxSize overlap 1 [' '] fun st sent =>
              let sub := recursiveChunkWithOverlap fuel sent maxSize overlap
              (st.1 ++ sub.dropLast, sub.getLast?.getD []))
            ([], []))
        else
          packFlush ((splitWsRuns (text.length + 1) text).foldl
            (packStep maxSize overlap 1 [' '] fun st word =>
              (st.1 ++ [jsTake word maxSize], jsDrop word maxSize))
            ([], []))

/-- `splitLargeChunk` of the source: apply the recursive splitter and wrap
the pieces as chunks, numbering them `"<header> (Part i)"` when there is
more than one piece.  Content is trimmed and `charCount` set from it. -/
def splitLargeChunk (chunkContent header : Str) (maxSize overlap : Nat) :
    List Chunk :=
  let splitTexts :=
    recursiveChunkWithOverlap (chunkContent.length + 1) chunkContent maxSize overlap
  splitTexts.enum.map fun p =>
    { header :=
        if splitTexts.length > 1 then
          header ++ str " (Part " ++ natToStr (p.1 + 1) ++ str ")"
        else header
      content := jsTrim p.2
      charCount := (jsTrim p.2).length
      containsTable := false }

/-- Attach start offsets to a list of lines produced by splitting on `'\n'`. -/
def addPos (pos : Nat) : List Str → List (Nat × Str)
  | [] => []
  | l :: rest => (pos, l) :: addPos (pos + l.length + 1) rest

/-- Does this line start a markdown section (`^#{1,3}\s+` at a line start)? -/
def isHeadingLine (line : Str) : Bool :=
  let hashes := line.takeWhile (· = '#')
  1 ≤ hashes.length && hashes.length ≤ 3 &&
    (match line.drop hashes.length with
     | c :: _ => isWsChar c
     | [] => false)

/-- Raw sections from a list of heading start offsets: each section runs
from its heading to just before the newline that precedes the next heading
(matching the lookahead `(?=\n#{1,3}\s+)`), the last one to the end of the
text.  The source writes the final alternative of the lookahead as `\Z`,
which JavaScript does not support as an anchor (it matches a literal `Z`);
this embedding models the evident intent (end of text).  No verified claim
depends on that corner: the inputs used either contain no headings at all
or do not exercise the final-section boundary. -/
def sectionsAux (text : Str) : List Nat → List (Nat × Str)
  | [] => []
  | [p] => [(p, text.drop p)]
  | p :: q :: rest =>
    (p, (text.drop p).take (q - 1 - p)) :: sectionsAux text (q :: rest)

/-- The header-based section matches of `chunkDocument` with their start
offsets (`markdownText.matchAll(pattern)`). -/
def sectionsOf (text : Str) : List (Nat × Str) :=
  let starts :=
    ((addPos 0 (splitOnChar '\n' text)).filter fun pl => isHeadingLine pl.2).map
      fun pl => pl.1
  sectionsAux text starts

/-- `chunkText.match(/^(#{1,3}\s+)(.+)/)`: the heading text of a section
(trimmed second capture group), `"Unknown"` when the pattern fails. -/
def parseHeaderText (chunkText : Str) : Str :=
  let hashes := chunkText.takeWhile (· = '#')
  if 1 ≤ hashes.length ∧ hashes.length ≤ 3 then
    let afterHash := chunkText.drop hashes.length
    let ws := afterHash.takeWhile isWsChar
    let rest := afterHash.drop ws.length
    if 1 ≤ ws.length ∧ rest ≠ [] then
      jsTrim (rest.takeWhile (· ≠ '\n'))
    else str "Unknown"
  else str "Unknown"

/-- The table/section overlap test of `chunkDocument` (lines 224–228 of the
source): a recorded table range `[s, e)` hits the chunk range
`[chunkStart, chunkEnd)` iff its start or its end falls inside. -/
def tableHit (tables : List (Str × Nat × Nat)) (chunkStart chunkEnd : Nat) :
    Bool :=
  tables.any fun t =>
    (decide (chunkStart ≤ t.2.1) && decide (t.2.1 < chunkEnd)) ||
    (decide (chunkStart < t.2.2) && decide (t.2.2 ≤ chunkEnd))

/-- The small-chunk absorption loop of `chunkDocument` (lines 260–267):
absorb following non-table chunks until the combined content reaches
`minChunkSize` or the input is exhausted.  Returns the combined content,
the combined header and the unconsumed remainder. -/
def combineSmall (minSize : Nat) : Str → Str → List Chunk → Str × Str × List Chunk
  | content, header, [] => (content, header, [])
  | content, header, c :: rest =>
    if content.length < minSize then
      if c.containsTable then (content, header, c :: rest)
      else
        combineSmall minSize (content ++ str "\n\n" ++ c.content)
          (header ++ str " + " ++ c.header) rest
    else (content, header, c :: rest)

theorem combineSmall_rest_le (minSize : Nat) :
    ∀ (content header : Str) (rest : List Chunk),
      (combineSmall minSize content header rest).2.2.length ≤ rest.length := by
  intro content header rest
  induction rest generalizing content header with
  | nil => simp [combineSmall]
  | cons c rest ih =>
    simp only [combineSmall]
    by_cases h1 : content.length < minSize
    · simp only [if_pos h1]
      by_cases h2 : c.containsTable
      · simp [h2]
      · simp only [h2, if_false, Bool.false_eq_true]
        calc (combineSmall minSize _ _ rest).2.2.length
            ≤ rest.length := ih _ _
          _ ≤ (c :: rest).length := by simp
    · simp [if_neg h1]

/-- The merge/split processing loop of `chunkDocument` (lines 241–297):
table chunks pass through as-is, small chunks absorb successors (splitting
if the result overshoots `maxChunkSize`), large chunks are split, the rest
pass through.  `fuel > (input length)` suffices (each step consumes at
least the head chunk); recursion is structural on `fuel` so that concrete
runs reduce. -/
def processChunks (cfg : ChunkingConfig) (fuel : Nat) : List Chunk → List Chunk
  | chunks =>
    match fuel, chunks with
    | 0, _ => []
    | _ + 1, [] => []
    | fuel + 1, current :: rest =>
      if current.containsTable then
        current :: processChunks cfg fuel rest
      else if current.charCount < cfg.minChunkSize then
        let res := combineSmall cfg.minChunkSize current.content current.header rest
        (if res.1.length > cfg.maxChunkSize then
          splitLargeChunk res.1 res.2.1 cfg.maxChunkSize cfg.overlap
        else
          [{ header := res.2.1, content := res.1,
             charCount := res.1.length, containsTable := false }]) ++
        processChunks cfg fuel res.2.2
      else if current.charCount > cfg.maxChunkSize then
        splitLargeChunk current.content current.header cfg.maxChunkSize cfg.overlap ++
          processChunks cfg fuel rest
      else
        current :: processChunks cfg fuel rest

/-- `chunkDocument` of the source: empty-input early exit, table extraction,
header-based sectioning with the small/large post-processing, and the
headerless recursive-chunking fallback (which ignores tables entirely and
stamps `containsTable := false`). -/
def chunkDocument (markdownText : Str) (config : ChunkingConfig) : List Chunk :=
  if (jsTrim markdownText).isEmpty then []
  else
    let tables := extractTables markdownText
    let sections := sectionsOf markdownText
    if sections.isEmpty then
      (recursiveChunkWithOverlap (markdownText.length + 1) markdownText
          config.maxChunkSize config.overlap).enum.map fun p =>
        { header := str "Chunk " ++ natToStr (p.1 + 1)
          content := p.2
          charCount := p.2.length
          containsTable := false }
    else
      let rawChunks := sections.filterMap fun sec =>
        let chunkText := jsTrim sec.2
        if chunkText.isEmpty then none
        else some
          { header := parseHeaderText chunkText
            content := chunkText
            charCount := chunkText.length
            containsTable := tableHit tables sec.1 (sec.1 + chunkText.length) }
      processChunks config (rawChunks.length + 1) rawChunks

/-! ## JavaScript numbers with NaN -/

/-- A JavaScript number as it occurs in the scoring pipeline: a rational
value or NaN. -/
inductive JsNum where
  | nan
  | val (q : ℚ)
  deriving Repr, DecidableEq

/-- JavaScript addition: NaN absorbs. -/
def jsAdd : JsNum → JsNum → JsNum
  | .nan, _ => .nan
  | _, .nan => .nan
  | .val a, .val b => .val (a + b)

/-- JavaScript multiplication: NaN absorbs (no infinities arise, see the
module comment). -/
def jsMul : JsNum → JsNum → JsNum
  | .nan, _ => .nan
  | _, .nan => .nan
  | .val a, .val b => .val (a * b)

/-- JavaScript division of two rationals, producing NaN on a zero
denominator.  (For nonzero numerators JavaScript yields ±Infinity rather
than NaN, but at every use site a zero denominator co-occurs with a zero
numerator.) -/
def jsDivNum (a b : ℚ) : JsNum := if b = 0 then .nan else .val (a / b)

/-- JavaScript division on NaN-carrying numbers: NaN absorbs, then
`jsDivNum`. -/
def jsDiv : JsNum → JsNum → JsNum
  | .nan, _ => .nan
  | _, .nan => .nan
  | .val a, .val b => jsDivNum a b

/-- `Math.sqrt` lifted to NaN-carrying numbers (`Math.sqrt NaN = NaN`);
values on rationals stay abstract through `sqrtA`. -/
def jsSqrt (sqrtA : ℚ → ℚ) : JsNum → JsNum
  | .nan => .nan
  | .val q => .val (sqrtA q)

/-- JavaScript `<=`: false whenever either operand is NaN. -/
def jsLeB : JsNum → JsNum → Bool
  | .val a, .val b => decide (a ≤ b)
  | _, _ => false

/-- JavaScript `x > 0`: false when `x` is NaN. -/
def jsGtZero : JsNum → Bool
  | .val a => decide (0 < a)
  | .nan => false

/-- The stable sort order induced by the comparator
`(a, b) => b.score - a.score`: `a` may stay before `b` when the comparator
value `b - a` is `≤ 0` — or is NaN, which ES `SortCompare` maps to `+0`,
a tie. -/
def jsCmpDesc (a b : JsNum) : Bool :=
  match a, b with
  | .val x, .val y => decide (y ≤ x)
  | _, _ => true

/-- JavaScript `x || 0` applied to an optional lookup: `undefined`, NaN
and `0` are falsy, so all three become `0`. -/
def jsOrZero : Option JsNum → JsNum
  | none => .val 0
  | some .nan => .val 0
  | some (.val v) => .val v

/-- `Math.max` of two numbers: NaN absorbs. -/
def jsMax : JsNum → JsNum → JsNum
  | .nan, _ => .nan
  | _, .nan => .nan
  | .val a, .val b => .val (max a b)

/-- `Math.max(...list)` over a nonempty list (callers guard emptiness as
the source does); NaN when any element is NaN. -/
def listMaxJs (l : List JsNum) : JsNum :=
  match l with
  | [] => .val 0
  | x :: xs => xs.foldl jsMax x

/-! ## Vector store (embedding index) -/

/-- A tagged chunk (`TaggedChunk` in the source). -/
structure TaggedChunk where
  header : Str
  content : Str
  charCount : Nat
  containsTable : Bool
  chunkId : Nat
  tags : List Str
  deriving Repr, DecidableEq

/-- Out-of-range indexing default; all indexing in the model stays in
range, so this value is never observable. -/
def dTC : TaggedChunk :=
  { header := [], content := [], charCount := 0, containsTable := false,
    chunkId := 0, tags := [] }

/-- `generateSimpleEmbedding` of the source: 300 character-frequency bins
(code point modulo 300), L2-normalised.  `sqrtA` models `Math.sqrt`.  The
bins are plain counts; the normalisation divides each by the magnitude,
yielding NaN per entry when the magnitude is zero (the empty string),
exactly as JavaScript's `0/0` does. -/
def generateSimpleEmbedding (sqrtA : ℚ → ℚ) (text : Str) : List JsNum :=
  let normalized := jsToLower text
  let embedding := normalized.foldl
    (fun acc c => acc.set (c.toNat % 300) (acc.getD (c.toNat % 300) 0 + 1))
    (List.replicate 300 (0 : ℚ))
  let magnitude := sqrtA (embedding.foldl (fun sum v => sum + v * v) 0)
  embedding.map fun v => jsDivNum v magnitude

/-- `cosineSimilarity` of the source; NaN inputs propagate through the dot
product, the norms and the final division.  On a dimension mismatch the
source throws (an invariant violation); the model returns `0` there — the
branch is unreachable because every embedding produced has 300 entries. -/
def cosineSimilarity (sqrtA : ℚ → ℚ) (vec1 vec2 : List JsNum) : JsNum :=
  if vec1.length ≠ vec2.length then .val 0
  else
    let dot := (vec1.zip vec2).foldl (fun s p => jsAdd s (jsMul p.1 p.2)) (.val 0)
    let norm1 := vec1.foldl (fun s v => jsAdd s (jsMul v v)) (.val 0)
    let norm2 := vec2.foldl (fun s v => jsAdd s (jsMul v v)) (.val 0)
    jsDiv dot (jsMul (jsSqrt sqrtA norm1) (jsSqrt sqrtA norm2))

/-- The in-memory vector store: chunks and their embeddings, co-indexed. -/
structure VectorStore where
  chunks : List TaggedChunk
  embeddings : List (List JsNum)
  deriving Repr, DecidableEq

/-- `VectorStore.addChunks`: replaces the store contents and rebuilds all
embeddings. -/
def VectorStore.addChunks (sqrtA : ℚ → ℚ) (chunks : List TaggedChunk) :
    VectorStore :=
  { chunks := chunks
    embeddings := chunks.map fun c => generateSimpleEmbedding sqrtA c.content }

/-- The result id string `` `chunk_${chunk.chunkId}` ``. -/
def mkChunkId (id : Nat) : Str := str "chunk_" ++ natToStr id

/-- Coarse relevance score returned by the grader. -/
inductive GradeScore where
  | high
  | medium
  | low
  deriving Repr, DecidableEq

/-- `RelevanceGrade` of the source. -/
structure RelevanceGrade where
  relevant : Bool
  score : GradeScore
  reason : Str
  deriving Repr, DecidableEq

/-- `SearchResult` of the source. -/
structure SearchResult where
  chunkId : Str
  score : JsNum
  header : Str
  content : Str
  tags : List Str
  relevanceGrade : Option RelevanceGrade := none
  deriving Repr, DecidableEq

/-- `VectorStore.semanticSearch`: embed the query, score every stored chunk
that passes the tag filter, sort by the descending comparator (stable;
NaN comparator results are ties), return the top `k`. -/
def VectorStore.semanticSearch (sqrtA : ℚ → ℚ) (store : VectorStore)
    (query : Str) (topK : Nat) (tagFilter : Option Str) : List SearchResult :=
  let queryEmbedding := generateSimpleEmbedding sqrtA query
  let scores := (List.range store.embeddings.length).filterMap fun i =>
    let chunk := store.chunks.getD i dTC
    if (tagFilter.elim false fun t => !(chunk.tags.contains t)) then none
    else some (i, cosineSimilarity sqrtA queryEmbedding (store.embeddings.getD i []))
  let sorted := scores.mergeSort fun a b => jsCmpDesc a.2 b.2
  let topResults := sorted.take topK
  topResults.map fun p =>
    let chunk := store.chunks.getD p.1 dTC
    { chunkId := mkChunkId chunk.chunkId, score := p.2, header := chunk.header,
      content := chunk.content, tags := chunk.tags }

/-- `VectorStore.getChunkById`: strip the `chunk_` prefix (first occurrence,
as JavaScript string `replace` does), `parseInt`, and look up the first
chunk with that numeric id. -/
def VectorStore.getChunkById (store : VectorStore) (chunkId : Str) :
    Option TaggedChunk :=
  match parseIntNat (jsReplaceFirst chunkId (str "chunk_") []) with
  | none => none
  | some id => store.chunks.find? fun c => c.chunkId == id

/-! ## Lexical index (BM25) -/

/-- The BM25 tokenizer: lowercase, replace `[^\w\s]` with spaces, split on
whitespace, drop empty tokens. -/
def tokenize (text : Str) : List Str :=
  let cleaned := (jsToLower text).map fun c =>
    if !(c.isAlphanum || c = '_' || isWsChar c) then ' ' else c
  (splitWsRuns (cleaned.length + 1) cleaned).filter fun t => t.length > 0

/-- Insertion-ordered map lookup (JavaScript `Map.get`). -/
def mapGet {β : Type} (m : List (Str × β)) (k : Str) : Option β :=
  (m.find? fun p => p.1 == k).map fun p => p.2

/-- Insertion-ordered map update (JavaScript `Map.set`): overwrite in place
or append. -/
def mapSet {β : Type} (m : List (Str × β)) (k : Str) (v : β) : List (Str × β) :=
  if m.any (fun p => p.1 == k) then
    m.map fun p => if p.1 == k then (k, v) else p
  else m ++ [(k, v)]

/-- `BM25.calculateIDF`: per-term document frequencies (via per-document
de-duplicated term sets) mapped through the IDF formula.  `logA` models
`Math.log`. -/
def calculateIDF (logA : ℚ → ℚ) (documents : List (List Str)) :
    List (Str × ℚ) :=
  let N := documents.length
  let termDocCount := documents.foldl
    (fun m doc => doc.eraseDups.foldl
      (fun m term => mapSet m term ((mapGet m term).getD 0 + 1)) m)
    []
  termDocCount.map fun p => (p.1, logA (((N : ℚ) - p.2 + 1/2) / (p.2 + 1/2) + 1))

/-- The state built by `BM25.initialize`. -/
structure BM25State where
  documents : List (List Str)
  avgDocLength : JsNum
  docLengths : List Nat
  idf : List (Str × ℚ)
  deriving Repr, DecidableEq

/-- `BM25.initialize`: tokenize, record lengths, compute the average length
(`sum / count`, which is `0/0` — NaN — on an empty corpus: there is no
short-circuit in the source) and the IDF table. -/
def bm25Init (logA : ℚ → ℚ) (documentsRaw : List Str) : BM25State :=
  let documents := documentsRaw.map tokenize
  let docLengths := documents.map List.length
  let avgDocLength :=
    jsDivNum (docLengths.foldl (fun a b => a + (b : ℚ)) 0) (docLengths.length : ℚ)
  { documents, avgDocLength, docLengths, idf := calculateIDF logA documents }

/-- `BM25.calculateScore` for one document index.  NaN propagates from the
document-length ratio when `avgDocLength` is NaN (empty corpus — then
this function is never applied) or zero (every document tokenless, where
JavaScript's `0/0` is NaN too). -/
def BM25State.calculateScore (st : BM25State) (queryTerms : List Str)
    (docIndex : Nat) : JsNum :=
  let doc := st.documents.getD docIndex []
  let docLength := st.docLengths.getD docIndex 0
  let k1 : ℚ := 3/2
  let b : ℚ := 3/4
  queryTerms.foldl
    (fun score term =>
      let tf : ℚ := ((doc.filter fun t => t == term).length : ℚ)
      let idf := (mapGet st.idf term).getD 0
      let numerator := tf * (k1 + 1)
      let denominator := jsAdd (.val tf)
        (jsMul (.val k1) (jsAdd (.val (1 - b))
          (jsMul (.val b) (jsDiv (.val (docLength : ℚ)) st.avgDocLength))))
      jsAdd score (jsMul (.val idf) (jsDiv (.val numerator) denominator)))
    (.val 0)

/-- `BM25.getScores`: one score per stored document. -/
def BM25State.getScores (st : BM25State) (query : Str) : List JsNum :=
  let queryTerms := tokenize query
  (List.range st.documents.length).map fun i => st.calculateScore queryTerms i

/-! ## Hybrid ranker -/

/-- The hybrid searcher state built by `HybridSearcher.initialize`. -/
structure HybridSearcher where
  vectorStore : VectorStore
  bm25 : BM25State
  allDocuments : List Str
  deriving Repr, DecidableEq

/-- `HybridSearcher.initialize`: build BM25 over all chunk contents. -/
def HybridSearcher.init (logA : ℚ → ℚ) (vectorStore : VectorStore) :
    HybridSearcher :=
  let allDocuments := vectorStore.chunks.map fun c => c.content
  { vectorStore, bm25 := bm25Init logA allDocuments, allDocuments }

/-- `HybridSearcher.search`: semantic over-fetch (`2*topK`), BM25 scores for
all chunks, per-family max-normalisation over the tag-filtered candidate
set, convex combination by `alpha`, stable descending sort, top `topK`.
The source reads each ranked id back through `getChunkById` with a
non-null assertion; the model's `filterMap` keeps exactly the successful
lookups (they all succeed for ids built from stored chunks, see
`getChunkById_mkChunkId`). -/
def HybridSearcher.search (sqrtA : ℚ → ℚ) (hs : HybridSearcher) (query : Str)
    (topK : Nat) (alpha : ℚ) (tagFilter : Option Str) : List SearchResult :=
  let semanticResults :=
    hs.vectorStore.semanticSearch sqrtA query (topK * 2) tagFilter
  let bm25Scores := hs.bm25.getScores query
  let semanticDistances := semanticResults.map fun r => r.score
  let maxDist :=
    if semanticDistances.isEmpty then JsNum.val 0 else listMaxJs semanticDistances
  let semanticScoreMap := semanticResults.foldl
    (fun m r => mapSet m r.chunkId
      (if jsGtZero maxDist then jsDiv r.score maxDist else .val 0))
    []
  let allChunks := hs.vectorStore.chunks
  let candidateIndices := (List.range allChunks.length).filter fun i =>
    match tagFilter with
    | none => true
    | some t => (allChunks.getD i dTC).tags.contains t
  let bm25Candidates := candidateIndices.map fun i => jsOrZero bm25Scores[i]?
  let maxBM25 :=
    if bm25Candidates.isEmpty then JsNum.val 0 else listMaxJs bm25Candidates
  let combinedScores := candidateIndices.map fun i =>
    let chunk := allChunks.getD i dTC
    let chunkId := mkChunkId chunk.chunkId
    let semScore := jsOrZero (mapGet semanticScoreMap chunkId)
    let bm25Score :=
      if jsGtZero maxBM25 then jsDiv (jsOrZero bm25Scores[i]?) maxBM25 else .val 0
    (chunkId, jsAdd (jsMul (.val alpha) semScore) (jsMul (.val (1 - alpha)) bm25Score))
  let sorted := combinedScores.mergeSort fun a b => jsCmpDesc a.2 b.2
  let topChunks := sorted.take topK
  topChunks.filterMap fun p =>
    (hs.vectorStore.getChunkById p.1).map fun chunk =>
      { chunkId := p.1, score := p.2, header := chunk.header,
        content := chunk.content, tags := chunk.tags }

/-! ## Corrective retrieval controller -/

/-- The grading prompt template of `gradeChunkRelevance` (the chunk content
is inserted already truncated to its first 1000 characters). -/
def gradingPrompt (query truncatedContent : Str) : Str :=
  str "You are a grading expert. Is this chunk relevant to the query?\n\nQuery: " ++
    query ++ str "\n\nChunk:\n" ++ truncatedContent ++
    str "\n\nFormat:\nRELEVANT: yes or no\nSCORE: high, medium, or low\nREASON: brief explanation (1 sentence)\n"

/-- The prompt actually sent for grading a chunk: the original query and
the chunk content truncated by `chunkContent.slice(0, 1000)`. -/
def gradePromptFor (chunkContent query : Str) : Str :=
  gradingPrompt query (jsTake chunkContent 1000)

/-- The line-oriented response parser inside `gradeChunkRelevance`:
defaults `relevant = false`, `score = low`, `reason = "Unknown"`, updated
by `RELEVANT:` / `SCORE:` / `REASON:` lines. -/
def parseGradeResponse (result : Str) : RelevanceGrade :=
  (splitOnChar '\n' result).foldl
    (fun g line =>
      if jsStartsWith line (str "RELEVANT:") then
        { g with relevant := jsIncludes (jsToLower line) (str "yes") }
      else if jsStartsWith line (str "SCORE:") then
        let scoreStr := jsToLower (jsTrim (jsReplaceFirst line (str "SCORE:") []))
        if scoreStr = str "high" then { g with score := .high }
        else if scoreStr = str "medium" then { g with score := .medium }
        else if scoreStr = str "low" then { g with score := .low }
        else g
      else if jsStartsWith line (str "REASON:") then
        { g with reason := jsTrim (jsReplaceFirst line (str "REASON:") []) }
      else g)
    { relevant := false, score := .low, reason := str "Unknown" }

/-- `gradeChunkRelevance` of the source: build the grading prompt, call the
LLM, parse the response; a thrown error is caught and replaced by
`{ relevant: true, score: 'medium', reason: 'Error during grading' }`. -/
def gradeChunkRelevance (llm : Str → Except Unit Str) (chunkContent query : Str) :
    RelevanceGrade :=
  match llm (gradePromptFor chunkContent query) with
  | .error _ =>
    { relevant := true, score := .medium, reason := str "Error during grading" }
  | .ok result => parseGradeResponse result

/-- The with-feedback prompt of `rewriteQuery` (both controller call sites
pass feedback, so only this template is exercised). -/
def rewritePrompt (originalQuery feedback : Str) : Str :=
  str "Original query failed to retrieve relevant results.\n\nOriginal: " ++
    originalQuery ++ str "\nFeedback: " ++ feedback ++
    str "\n\nRewrite for better retrieval. Return only the rewritten query."

/-- `rewriteQuery` of the source: on failure, or on an empty trimmed
response (`content?.trim() || originalQuery`), the original query is
returned unchanged. -/
def rewriteQuery (llm : Str → Except Unit Str) (originalQuery feedback : Str) :
    Str :=
  match llm (rewritePrompt originalQuery feedback) with
  | .error _ => originalQuery
  | .ok s =>
    let r := jsTrim s
    if r.isEmpty then originalQuery else r

/-- Ghost record of one `gradeChunkRelevance` invocation: the full chunk
content and the query argument the controller passed. -/
structure GradeCall where
  chunkContent : Str
  query : Str
  deriving Repr, DecidableEq

/-- The grading pass of one controller iteration (source lines 147–171):
grade every retrieved chunk against `query` (the controller's *original*
query argument), attach the grade, and append accepted chunks not already
present (dedup by `chunkId`).  Also records every grading call. -/
def gradePass (llmG : Str → Except Unit Str) (query : Str)
    (retrieved : List SearchResult) (acc : List SearchResult)
    (log : List GradeCall) : List SearchResult × List GradeCall :=
  retrieved.foldl
    (fun st chunk =>
      let grade := gradeChunkRelevance llmG chunk.content query
      let log' := st.2 ++ [{ chunkContent := chunk.content, query := query }]
      let chunk' := { chunk with relevanceGrade := some grade }
      if grade.relevant && (grade.score == .high || grade.score == .medium) then
        if !(st.1.any fun c => c.chunkId == chunk.chunkId) then
          (st.1 ++ [chunk'], log')
        else (st.1, log')
      else (st.1, log'))
    (acc, log)

/-- Mutable state of the retrieval loop. -/
structure LoopState where
  currentQuery : Str
  iteration : Nat
  acc : List SearchResult
  log : List GradeCall
  deriving Repr, DecidableEq

/-- The `while (iteration < maxIterations)` loop of `correctiveRAGRetrieval`.
`fuel` is the remaining iteration budget (`maxIterations` at entry; the
loop exits when it reaches `0`).  On zero retrieved results the current
query is rewritten (with the *current* query, feedback "No results
found"); otherwise the retrieved chunks are graded, the loop breaks once
3 relevant chunks have accumulated, and if iterations remain the query is
rewritten from the *original* query with a shortfall feedback. -/
def ragLoop (search : Str → List SearchResult) (llmG llmR : Str → Except Unit Str)
    (query : Str) (maxIterations fuel : Nat) (st : LoopState) : LoopState :=
  match fuel with
  | 0 => st
  | fuel + 1 =>
    let iteration := st.iteration + 1
    let retrieved := search st.currentQuery
    if retrieved.isEmpty then
      let q' := rewriteQuery llmR st.currentQuery (str "No results found")
      ragLoop search llmG llmR query maxIterations fuel
        { st with currentQuery := q', iteration := iteration }
    else
      let gp := gradePass llmG query retrieved st.acc st.log
      if 3 ≤ gp.1.length then
        { st with iteration := iteration, acc := gp.1, log := gp.2 }
      else if iteration < maxIterations then
        let feedback := str "Only found " ++ natToStr gp.1.length ++
          str " relevant chunks. Need more specific information."
        let q' := rewriteQuery llmR query feedback
        ragLoop search llmG llmR query maxIterations fuel
          { currentQuery := q', iteration := iteration, acc := gp.1, log := gp.2 }
      else
        ragLoop search llmG llmR query maxIterations fuel
          { st with iteration := iteration, acc := gp.1, log := gp.2 }

/-- `CorrectiveRAGResult` of the source. -/
structure CorrectiveRAGResult where
  query : Str
  finalQuery : Str
  iterations : Nat
  relevantChunks : List SearchResult
  totalFound : Nat
  deriving Repr, DecidableEq

/-- A controller run together with the ghost log of grading calls. -/
structure RunOutput where
  result : CorrectiveRAGResult
  gradeCalls : List GradeCall
  deriving Repr, DecidableEq

/-- `correctiveRAGRetrieval` of the source.  `search` is the hybrid
searcher partially applied at the run's fixed `topK` and `alpha = 0.5`
(both the in-loop calls and the final fallback call use the same `topK`);
`llmG`/`llmR` are the grading and rewriting LLM transports.  If the loop
accumulates nothing, one final search with the *original* query supplies
the raw, ungraded fallback results. -/
def correctiveRAGRetrieval (search : Str → List SearchResult)
    (llmG llmR : Str → Except Unit Str) (query : Str) (maxIterations : Nat) :
    RunOutput :=
  let st := ragLoop search llmG llmR query maxIterations maxIterations
    { currentQuery := query, iteration := 0, acc := [], log := [] }
  let relevant := if st.acc.isEmpty then search query else st.acc
  { result :=
      { query := query, finalQuery := st.currentQuery, iterations := st.iteration,
        relevantChunks := relevant, totalFound := relevant.length }
    gradeCalls := st.log }

/-! ## Properties of the segmentation engine -/

theorem splitLargeChunk_charCount (content header : Str) (maxSize overlap : Nat) :
    ∀ c ∈ splitLargeChunk content header maxSize overlap,
      c.charCount = c.content.length := by
  intro c hc
  simp only [splitLargeChunk, List.mem_map] at hc
  obtain ⟨p, _, rfl⟩ := hc
  rfl

theorem combineSmall_rest_mem (minSize : Nat) :
    ∀ (content header : Str) (rest : List Chunk),
      ∀ c ∈ (combineSmall minSize content header rest).2.2, c ∈ rest := by
  intro content header rest
  induction rest generalizing content header with
  | nil => simp [combineSmall]
  | cons d rest ih =>
    intro c hc
    simp only [combineSmall] at hc
    by_cases h1 : content.length < minSize
    · simp only [if_pos h1] at hc
      by_cases h2 : d.containsTable
      · simpa [h2] using hc
      · simp only [h2, Bool.false_eq_true, if_false] at hc
        exact List.mem_cons_of_mem d (ih _ _ c hc)
    · simpa [h1] using hc

theorem combineSmall_table_mem (minSize : Nat) :
    ∀ (content header : Str) (rest : List Chunk) (c : Chunk),
      c ∈ rest → c.containsTable = true →
      c ∈ (combineSmall minSize content header rest).2.2 := by
  intro content header rest
  induction rest generalizing content header with
  | nil => simp
  | cons d rest ih =>
    intro c hc htab
    simp only [combineSmall]
    by_cases h1 : content.length < minSize
    · by_cases h2 : d.containsTable
      · simpa [h1, h2] using hc
      · simp only [if_pos h1, h2, Bool.false_eq_true, if_false]
        rcases List.mem_cons.mp hc with rfl | hmem
        · rw [htab] at h2; exact absurd rfl h2
        · exact ih _ _ c hmem htab
    · simpa [h1] using hc

theorem processChunks_charCount (cfg : ChunkingConfig) :
    ∀ (fuel : Nat) (raw : List Chunk),
      (∀ c ∈ raw, c.charCount = c.content.length) →
      ∀ c ∈ processChunks cfg fuel raw, c.charCount = c.content.length := by
  intro fuel
  induction fuel with
  | zero => intro raw _ c hc; simp [processChunks] at hc
  | succ fuel ih =>
    intro raw hraw c hc
    match raw with
    | [] => simp [processChunks] at hc
    | current :: rest =>
      have hrest : ∀ d ∈ rest, d.charCount = d.content.length := fun d hd =>
        hraw d (List.mem_cons_of_mem _ hd)
      simp only [processChunks] at hc
      by_cases h1 : current.containsTable
      · simp only [h1, if_true] at hc
        rcases List.mem_cons.mp hc with rfl | hmem
        · exact hraw c (List.mem_cons_self c rest)
        · exact ih rest hrest c hmem
      · simp only [h1, Bool.false_eq_true, if_false] at hc
        by_cases h2 : current.charCount < cfg.minChunkSize
        · simp only [h2, if_true] at hc
          rcases List.mem_append.mp hc with hmem | hmem
          · by_cases h3 :
              (combineSmall cfg.minChunkSize current.content current.header rest).1.length >
                cfg.maxChunkSize
            · simp only [h3, if_true] at hmem
              exact splitLargeChunk_charCount _ _ _ _ c hmem
            · simp only [h3, if_false] at hmem
              simp only [List.mem_singleton] at hmem
              subst hmem
              rfl
          · refine ih _ ?_ c hmem
            intro d hd
            exact hrest d (combineSmall_rest_mem cfg.minChunkSize _ _ rest d hd)
        · simp only [h2, if_false] at hc
          by_cases h3 : current.charCount > cfg.maxChunkSize
          · simp only [h3, if_true] at hc
            rcases List.mem_append.mp hc with hmem | hmem
            · exact splitLargeChunk_charCount _ _ _ _ c hmem
            · exact ih rest hrest c hmem
          · simp only [h3, if_false] at hc
            rcases List.mem_cons.mp hc with rfl | hmem
            · exact hraw c (List.mem_cons_self c rest)
            · exact ih rest hrest c hmem

/-- C8: Every chunk produced by `chunkDocument` satisfies
`charCount = length(content)`, on every production path (header-based,
combined, recursively split with trimming, and the headerless fallback). -/
theorem claim_C8_charCount_invariant (text : Str) (cfg : ChunkingConfig) :
    ∀ c ∈ chunkDocument text cfg, c.charCount = c.content.length := by
  intro c hc
  unfold chunkDocument at hc
  by_cases h0 : (jsTrim text).isEmpty
  · simp [h0] at hc
  · simp only [h0, Bool.false_eq_true, if_false] at hc
    by_cases h1 : (sectionsOf text).isEmpty
    · simp only [h1, if_true, List.mem_map] at hc
      obtain ⟨p, _, rfl⟩ := hc
      rfl
    · simp only [h1, Bool.false_eq_true, if_false] at hc
      refine processChunks_charCount cfg _ _ ?_ c hc
      intro d hd
      simp only [List.mem_filterMap] at hd
      obtain ⟨sec, _, hsec⟩ := hd
      by_cases h2 : (jsTrim sec.2).isEmpty
      · simp [h2] at hsec
      · simp only [h2, Bool.false_eq_true, if_false, Option.some.injEq] at hsec
        subst hsec
        rfl

/-- A concrete headerless document consisting of one markdown table. -/
def c2Input : Str := str "|a|\n|-|\n|bbbb|\n"

/-- A concrete chunking configuration exercising the recursive splitter. -/
def c2Cfg : ChunkingConfig := { minChunkSize := 2, maxChunkSize := 6, overlap := 1 }

/-- C2 (counterexample): the claim that every detected table block lies
entirely within a single returned chunk is false.  For the headerless
input `"|a|\n|-|\n|bbbb|\n"` (a single detected table covering the whole
text) with `maxChunkSize = 6`, `chunkDocument` runs the table-oblivious
recursive splitter and returns chunks `"|a|"`, `"| |-|"`, `"| |bbbb|"`,
`"| "`: no returned chunk contains the detected table block. -/
theorem claim_C2_counterexample :
    extractTables c2Input ≠ [] ∧
    ∀ t ∈ extractTables c2Input, ∀ c ∈ chunkDocument c2Input c2Cfg,
      jsIncludes c.content t.1 = false := by
  decide

/-- C2 (amended): table preservation holds only on the header-based path —
in the merge/split processing stage every raw segment marked
`containsTable` is emitted as-is (never combined or split); the headerless
fallback ignores tables, as the counterexample shows. -/
theorem claim_C2_amended (cfg : ChunkingConfig) (fuel : Nat)
    (raw : List Chunk) (c : Chunk) (hfuel : raw.length < fuel)
    (hc : c ∈ raw) (htab : c.containsTable = true) :
    c ∈ processChunks cfg fuel raw := by
  induction fuel generalizing raw with
  | zero => omega
  | succ fuel ih =>
    match raw with
    | [] => simp at hc
    | current :: rest =>
      simp only [List.length_cons] at hfuel
      simp only [processChunks]
      rcases List.mem_cons.mp hc with rfl | hmem
      · simp [htab]
      · by_cases h1 : current.containsTable
        · simp only [h1, if_true, List.mem_cons]
          exact Or.inr (ih rest (by omega) hmem)
        · simp only [h1, Bool.false_eq_true, if_false]
          by_cases h2 : current.charCount < cfg.minChunkSize
          · simp only [h2, if_true, List.mem_append]
            refine Or.inr (ih _ ?_ ?_)
            · have := combineSmall_rest_le cfg.minChunkSize current.content
                current.header rest
              omega
            · exact combineSmall_table_mem cfg.minChunkSize _ _ rest c hmem htab
          · simp only [h2, if_false]
            by_cases h3 : current.charCount > cfg.maxChunkSize
            · simp only [h3, if_true, List.mem_append]
              exact Or.inr (ih rest (by omega) hmem)
            · simp only [h3, if_false, List.mem_cons]
              exact Or.inr (ih rest (by omega) hmem)

/-- C2 (witness for the amended theorem): a concrete table chunk passes
through the processing stage unchanged. -/
theorem claim_C2_witness :
    ({ header := str "T", content := str "|a|\n|-|\n", charCount := 9,
       containsTable := true } : Chunk) ∈
      processChunks c2Cfg 2
        [{ header := str "T", content := str "|a|\n|-|\n", charCount := 9,
           containsTable := true }] :=
  claim_C2_amended c2Cfg 2 _ _ (by decide) (by decide) (by decide)

/-! ## Properties of the corrective retrieval controller -/

/-- An LLM transport whose every call fails (throws). -/
def failLLM : Str → Except Unit Str := fun _ => .error ()

/-- A concrete retrieved chunk for controller runs. -/
def c1Chunk (i : Nat) : SearchResult :=
  { chunkId := mkChunkId i, score := .val 0, header := str "H",
    content := str "body", tags := [] }

/-- A searcher returning three distinct chunks for every query. -/
def c1Search : Str → List SearchResult := fun _ => [c1Chunk 0, c1Chunk 1, c1Chunk 2]

/-- C1: the fail-closed-grading claim is false on the code — it is
fail-open.  A thrown grading call is caught and replaced by
`{ relevant: true, score: 'medium' }`, which passes the acceptance test,
so every chunk whose grading call failed is *accepted*: with an
always-failing grader the run accepts all three retrieved chunks in the
first iteration (not via the ungraded fallback — each accepted chunk
carries the error grade). -/
theorem claim_C1_code_bug :
    (gradeChunkRelevance failLLM (str "body") (str "q") =
      { relevant := true, score := .medium,
        reason := str "Error during grading" }) ∧
    ((correctiveRAGRetrieval c1Search failLLM failLLM (str "q") 3).result.iterations = 1 ∧
     (correctiveRAGRetrieval c1Search failLLM failLLM (str "q") 3).result.relevantChunks.length = 3 ∧
     ∀ c ∈ (correctiveRAGRetrieval c1Search failLLM failLLM (str "q") 3).result.relevantChunks,
       c.relevanceGrade = some
         { relevant := true, score := .medium,
           reason := str "Error during grading" }) := by
  decide

theorem ragLoop_iteration_le (search : Str → List SearchResult)
    (llmG llmR : Str → Except Unit Str) (query : Str) (maxIterations : Nat) :
    ∀ (fuel : Nat) (st : LoopState),
      (ragLoop search llmG llmR query maxIterations fuel st).iteration ≤
        st.iteration + fuel := by
  intro fuel
  induction fuel with
  | zero => intro st; simp [ragLoop]
  | succ fuel ih =>
    intro st
    simp only [ragLoop]
    by_cases h1 : (search st.currentQuery).isEmpty
    · simp only [h1, if_true]
      have := ih
        { st with
          currentQuery := rewriteQuery llmR st.currentQuery (str "No results found")
          iteration := st.iteration + 1 }
      simp only at this
      omega
    · simp only [h1, Bool.false_eq_true, if_false]
      by_cases h2 :
          3 ≤ (gradePass llmG query (search st.currentQuery) st.acc st.log).1.length
      · simp only [h2, if_true]
        omega
      · simp only [h2, if_false]
        by_cases h3 : st.iteration + 1 < maxIterations
        · simp only [h3, if_true]
          have := ih
            { currentQuery :=
                rewriteQuery llmR query
                  (str "Only found " ++
                    natToStr (gradePass llmG query (search st.currentQuery) st.acc st.log).1.length ++
                    str " relevant chunks. Need more specific information.")
              iteration := st.iteration + 1
              acc := (gradePass llmG query (search st.currentQuery) st.acc st.log).1
              log := (gradePass llmG query (search st.currentQuery) st.acc st.log).2 }
          simp only at this
          omega
        · simp only [h3, if_false]
          have := ih
            { st with
              iteration := st.iteration + 1
              acc := (gradePass llmG query (search st.currentQuery) st.acc st.log).1
              log := (gradePass llmG query (search st.currentQuery) st.acc st.log).2 }
          simp only at this
          omega

/-- C3: a run never executes more than `maxIterations` SEARCH cycles, and
when the grading of the first search's results already accepts 3 chunks
the loop stops immediately: the reported `iterations` is `1` (e.g.
`maxIterations = 5` with sufficiency on the first pass). -/
theorem claim_C3_iteration_bound (search : Str → List SearchResult)
    (llmG llmR : Str → Except Unit Str) (query : Str) (maxIterations : Nat)
    (hmax : 1 ≤ maxIterations) :
    (correctiveRAGRetrieval search llmG llmR query maxIterations).result.iterations ≤
      maxIterations ∧
    (3 ≤ (gradePass llmG query (search query) [] []).1.length →
      (correctiveRAGRetrieval search llmG llmR query maxIterations).result.iterations = 1) := by
  constructor
  · have := ragLoop_iteration_le search llmG llmR query maxIterations maxIterations
      { currentQuery := query, iteration := 0, acc := [], log := [] }
    simpa [correctiveRAGRetrieval] using this
  · intro hsuff
    obtain ⟨fuel, rfl⟩ : ∃ fuel, maxIterations = fuel + 1 :=
      ⟨maxIterations - 1, by omega⟩
    have hne : (search query).isEmpty = false := by
      by_contra h
      have hq : search query = [] := by
        cases hq : search query with
        | nil => rfl
        | cons a l => simp [hq] at h
      rw [hq] at hsuff
      simp [gradePass] at hsuff
    simp only [correctiveRAGRetrieval, ragLoop, hne, Bool.false_eq_true, if_false,
      hsuff, if_true, if_pos hsuff]

/-- A grader transport that always accepts with a HIGH score. -/
def okGrade : Str → Except Unit Str :=
  fun _ => .ok (str "RELEVANT: yes\nSCORE: high\nREASON: ok")

/-- C3 (witness): concrete run with `maxIterations = 5` and a searcher
returning three chunks all graded HIGH. -/
theorem claim_C3_witness :
    (correctiveRAGRetrieval c1Search okGrade okGrade (str "q") 5).result.iterations ≤ 5 ∧
    (3 ≤ (gradePass okGrade (str "q") (c1Search (str "q")) [] []).1.length →
      (correctiveRAGRetrieval c1Search okGrade okGrade (str "q") 5).result.iterations = 1) :=
  claim_C3_iteration_bound c1Search okGrade okGrade (str "q") 5 (by decide)

theorem gradePass_log_entries (llmG : Str → Except Unit Str) (query : Str) :
    ∀ (retrieved : List SearchResult) (acc : List SearchResult)
      (log : List GradeCall),
      ∀ e ∈ (gradePass llmG query retrieved acc log).2,
        e ∈ log ∨ e.query = query := by
  intro retrieved
  induction retrieved with
  | nil => intro acc log e he; exact Or.inl he
  | cons chunk rest ih =>
    intro acc log e he
    simp only [gradePass, List.foldl_cons] at he
    by_cases hacc : (gradeChunkRelevance llmG chunk.content query).relevant &&
        ((gradeChunkRelevance llmG chunk.content query).score == GradeScore.high ||
         (gradeChunkRelevance llmG chunk.content query).score == GradeScore.medium)
    · by_cases hdup : (acc.any fun c => c.chunkId == chunk.chunkId)
      · simp only [hacc, hdup, Bool.not_true, Bool.false_eq_true, if_false,
          if_true] at he
        rcases ih _ _ e he with hmem | hq
        · rcases List.mem_append.mp hmem with h | h
          · exact Or.inl h
          · simp only [List.mem_singleton] at h
            subst h
            exact Or.inr rfl
        · exact Or.inr hq
      · simp only [hacc, hdup, Bool.not_false, if_true] at he
        rcases ih _ _ e he with hmem | hq
        · rcases List.mem_append.mp hmem with h | h
          · exact Or.inl h
          · simp only [List.mem_singleton] at h
            subst h
            exact Or.inr rfl
        · exact Or.inr hq
    · simp only [hacc, Bool.false_eq_true, if_false] at he
      rcases ih _ _ e he with hmem | hq
      · rcases List.mem_append.mp hmem with h | h
        · exact Or.inl h
        · simp only [List.mem_singleton] at h
          subst h
          exact Or.inr rfl
      · exact Or.inr hq

theorem ragLoop_log_query (search : Str → List SearchResult)
    (llmG llmR : Str → Except Unit Str) (query : Str) (maxIterations : Nat) :
    ∀ (fuel : Nat) (st : LoopState),
      (∀ e ∈ st.log, e.query = query) →
      ∀ e ∈ (ragLoop search llmG llmR query maxIterations fuel st).log,
        e.query = query := by
  intro fuel
  induction fuel with
  | zero => intro st hst e he; exact hst e he
  | succ fuel ih =>
    intro st hst e he
    simp only [ragLoop] at he
    by_cases h1 : (search st.currentQuery).isEmpty
    · simp only [h1, if_true] at he
      exact ih _ (by simpa using hst) e he
    · simp only [h1, Bool.false_eq_true, if_false] at he
      have hgp : ∀ e ∈ (gradePass llmG query (search st.currentQuery)
          st.acc st.log).2, e.query = query := by
        intro e' he'
        rcases gradePass_log_entries llmG query _ _ _ e' he' with h | h
        · exact hst e' h
        · exact h
      by_cases h2 :
          3 ≤ (gradePass llmG query (search st.currentQuery) st.acc st.log).1.length
      · simp only [h2, if_true] at he
        exact hgp e he
      · simp only [h2, if_false] at he
        by_cases h3 : st.iteration + 1 < maxIterations
        · simp only [h3, if_true] at he
          exact ih _ (by simpa using hgp) e he
        · simp only [h3, if_false] at he
          exact ih _ (by simpa using hgp) e he

/-- C7: every grading invocation of a run passes the *original* query
(never a rewritten one), and the prompt the grader receives embeds the
chunk content truncated to its first 1000 characters. -/
theorem claim_C7_grading_arguments (search : Str → List SearchResult)
    (llmG llmR : Str → Except Unit Str) (query : Str) (maxIterations : Nat) :
    ∀ call ∈ (correctiveRAGRetrieval search llmG llmR query maxIterations).gradeCalls,
      call.query = query ∧
      gradePromptFor call.chunkContent call.query =
        gradingPrompt query (jsTake call.chunkContent 1000) := by
  intro call hcall
  have hq : call.query = query := by
    refine ragLoop_log_query search llmG llmR query maxIterations maxIterations
      { currentQuery := query, iteration := 0, acc := [], log := [] } ?_ call ?_
    · intro e he; simp at he
    · simpa [correctiveRAGRetrieval] using hcall
  exact ⟨hq, by rw [hq]; rfl⟩

/-- C7 (witness): in a concrete run the logged grading call for the chunk
with content `"body"` was made with the original query `"q"`. -/
theorem claim_C7_witness :
    (⟨str "body", str "q"⟩ : GradeCall).query = str "q" ∧
    gradePromptFor (str "body") (str "q") =
      gradingPrompt (str "q") (jsTake (str "body") 1000) :=
  claim_C7_grading_arguments c1Search okGrade okGrade (str "q") 2
    ⟨str "body", str "q"⟩ (by decide)

/-! ## Properties of the lexical index -/

/-- C5 (counterexample): `build` does *not* short-circuit on an empty
corpus; it computes the average document length as `0/0`, leaving
`avgDocLength` NaN (with `Math.log` instantiated to any function, here the
identity). -/
theorem claim_C5_counterexample : (bm25Init id []).avgDocLength = JsNum.nan := by
  decide

/-- C5 (amended): after building the BM25 index on an empty document
sequence, `score(query)` returns the empty sequence for every query — but
not because `build` short-circuits: `build` performs the `0/0` division,
setting `avgDocLength` to NaN.  No exception occurs (JavaScript division
returns NaN) and the NaN never reaches a score, because there are no
documents to score. -/
theorem claim_C5_empty_corpus (logA : ℚ → ℚ) (query : Str) :
    (bm25Init logA []).getScores query = [] ∧
    (bm25Init logA []).avgDocLength = JsNum.nan := by
  constructor
  · rfl
  · rfl

/-! ## Properties of the vector store -/

theorem length_filterMap_some {α β : Type} (l : List α) (g : α → β) :
    (l.filterMap fun x => some (g x)).length = l.length := by
  induction l with
  | nil => rfl
  | cons x xs ih => simp [List.filterMap_cons, ih]

theorem semanticSearch_length_nofilter (sqrtA : ℚ → ℚ)
    (chunks : List TaggedChunk) (query : Str) (topK : Nat) :
    ((VectorStore.addChunks sqrtA chunks).semanticSearch sqrtA query topK none).length =
      min topK chunks.length := by
  simp only [VectorStore.semanticSearch, VectorStore.addChunks]
  rw [List.length_map, List.length_take]
  rw [(List.mergeSort_perm _ _).length_eq]
  simp only [Option.elim_none, Bool.false_eq_true, if_false]
  rw [length_filterMap_some, List.length_range, List.length_map]

theorem generateSimpleEmbedding_length (sqrtA : ℚ → ℚ) (text : Str) :
    (generateSimpleEmbedding sqrtA text).length = 300 := by
  unfold generateSimpleEmbedding
  rw [List.length_map]
  have hfold : ∀ (cs : Str) (acc : List ℚ),
      (cs.foldl (fun acc c =>
        acc.set (c.toNat % 300) (acc.getD (c.toNat % 300) 0 + 1)) acc).length =
        acc.length := by
    intro cs
    induction cs with
    | nil => intro acc; rfl
    | cons c rest ih => intro acc; rw [List.foldl_cons, ih, List.length_set]
  rw [hfold, List.length_replicate]

theorem jsAdd_nan_left (x : JsNum) : jsAdd JsNum.nan x = JsNum.nan := by
  cases x <;> rfl

theorem jsDiv_nan_left (x : JsNum) : jsDiv JsNum.nan x = JsNum.nan := by
  cases x <;> rfl

theorem foldl_dot_nan (l : List (JsNum × JsNum)) :
    l.foldl (fun s p => jsAdd s (jsMul p.1 p.2)) JsNum.nan = JsNum.nan := by
  induction l with
  | nil => rfl
  | cons p rest ih =>
    rw [List.foldl_cons, jsAdd_nan_left]
    exact ih

theorem foldl_sumsq_replicate_zero (n : Nat) :
    (List.replicate n (0 : ℚ)).foldl (fun sum v => sum + v * v) 0 = 0 := by
  induction n with
  | zero => rfl
  | succ m ih =>
    rw [List.replicate_succ, List.foldl_cons]
    simpa using ih

/-- The empty string's embedding: zero bins, zero magnitude, and every
normalised entry is `0/0` — NaN — exactly as in JavaScript (assuming only
`Math.sqrt 0 = 0`). -/
theorem generateSimpleEmbedding_empty (sqrtA : ℚ → ℚ) (hsqrt : sqrtA 0 = 0) :
    generateSimpleEmbedding sqrtA [] = List.replicate 300 JsNum.nan := by
  unfold generateSimpleEmbedding
  simp only [jsToLower, List.map_nil, List.foldl_nil]
  rw [foldl_sumsq_replicate_zero, hsqrt, List.map_replicate]
  have : jsDivNum (0 : ℚ) 0 = JsNum.nan := by simp [jsDivNum]
  rw [this]

theorem cosineSimilarity_nan_left (sqrtA : ℚ → ℚ) (n : Nat) (hn : 0 < n)
    (v2 : List JsNum) (hlen : v2.length = n) :
    cosineSimilarity sqrtA (List.replicate n JsNum.nan) v2 = JsNum.nan := by
  unfold cosineSimilarity
  rw [List.length_replicate, if_neg (by omega)]
  cases n with
  | zero => omega
  | succ m =>
    cases v2 with
    | nil => simp at hlen
    | cons y ys =>
      rw [List.replicate_succ, List.zip_cons_cons, List.foldl_cons]
      have hstep : jsAdd (JsNum.val 0) (jsMul JsNum.nan y) = JsNum.nan := by
        cases y <;> rfl
      rw [hstep, foldl_dot_nan]
      exact jsDiv_nan_left _

theorem semanticSearch_scores_nan (sqrtA : ℚ → ℚ) (hsqrt : sqrtA 0 = 0)
    (chunks : List TaggedChunk) (topK : Nat) :
    ∀ r ∈ (VectorStore.addChunks sqrtA chunks).semanticSearch sqrtA [] topK none,
      r.score = JsNum.nan := by
  intro r hr
  simp only [VectorStore.semanticSearch, List.mem_map] at hr
  obtain ⟨p, hp, hres⟩ := hr
  have hp2 := (List.mergeSort_perm _ _).mem_iff.mp (List.mem_of_mem_take hp)
  simp only [List.mem_filterMap, List.mem_range, Option.elim_none,
    Bool.false_eq_true, if_false, Option.some.injEq] at hp2
  obtain ⟨i, hi, hpi⟩ := hp2
  rw [← hres, ← hpi]
  show cosineSimilarity sqrtA (generateSimpleEmbedding sqrtA [])
      ((VectorStore.addChunks sqrtA chunks).embeddings.getD i []) = JsNum.nan
  rw [generateSimpleEmbedding_empty sqrtA hsqrt]
  refine cosineSimilarity_nan_left sqrtA 300 (by omega) _ ?_
  rw [List.getD_eq_getElem _ _ hi]
  simp only [VectorStore.addChunks, List.getElem_map]
  exact generateSimpleEmbedding_length sqrtA _

/-- A concrete tagged chunk for witnesses. -/
def wChunk (i : Nat) (tags : List Str) : TaggedChunk :=
  { header := str "H", content := str "x", charCount := 1,
    containsTable := false, chunkId := i, tags := tags }

/-- A concrete two-chunk store for the empty-query counterexample. -/
def c9Store : VectorStore := VectorStore.addChunks id [wChunk 0 [], wChunk 1 []]

/-- C9 (counterexample): the "similarity scores sorted descending" part of
the claim is false at its own input.  The empty query's embedding has zero
magnitude, so every similarity score is NaN; on a two-chunk store both
returned scores are NaN, and NaN comparisons fail, so the scores are not
pairwise descending. -/
theorem claim_C9_counterexample :
    ((c9Store.semanticSearch id [] 2 none).map fun r => r.score) =
      [JsNum.nan, JsNum.nan] ∧
    ¬ List.Pairwise (fun a b : SearchResult => jsLeB b.score a.score = true)
      (c9Store.semanticSearch id [] 2 none) := by
  have hlen : (c9Store.semanticSearch id [] 2 none).length = 2 := by
    have := semanticSearch_length_nofilter id [wChunk 0 [], wChunk 1 []] [] 2
    simpa [c9Store] using this
  have hnan : ∀ r ∈ c9Store.semanticSearch id [] 2 none, r.score = JsNum.nan := by
    have := semanticSearch_scores_nan id rfl [wChunk 0 [], wChunk 1 []] 2
    simpa [c9Store] using this
  have hne : c9Store.semanticSearch id [] 2 none ≠ [] := by
    intro h
    rw [h] at hlen
    simp at hlen
  obtain ⟨r1, rest, h1⟩ := List.exists_cons_of_ne_nil hne
  have hrest : rest.length = 1 := by
    rw [h1] at hlen
    simpa using hlen
  obtain ⟨r2, h2⟩ := List.length_eq_one.mp hrest
  have hres : c9Store.semanticSearch id [] 2 none = [r1, r2] := by rw [h1, h2]
  have e1 : r1.score = JsNum.nan := hnan r1 (by rw [hres]; simp)
  have e2 : r2.score = JsNum.nan := hnan r2 (by rw [hres]; simp)
  constructor
  · rw [hres]
    simp [e1, e2]
  · intro hpw
    rw [hres] at hpw
    have h12 := (List.pairwise_cons.mp hpw).1 r2 (by simp)
    rw [e1, e2] at h12
    exact absurd h12 (by decide)

/-- C9 (amended): on an empty store `semanticSearch` returns the empty
sequence for every query; and the empty query is not special-cased — an
embedding is still computed for the empty string (300 entries, every one
NaN from the zero-magnitude `0/0` normalisation) and the generic ranking
path runs with no short-circuit, returning exactly `min topK count`
results — but every returned similarity score is NaN, so the scores are
*not* sorted descending once there are two or more results (NaN
comparisons fail; the sort's NaN comparator results act as ties).
`Math.sqrt 0 = 0` is the only fact assumed of the abstract square root. -/
theorem claim_C9_empty_query (sqrtA : ℚ → ℚ) (hsqrt : sqrtA 0 = 0) :
    (∀ (query : Str) (topK : Nat) (tagFilter : Option Str),
      (VectorStore.addChunks sqrtA []).semanticSearch sqrtA query topK tagFilter = []) ∧
    ((generateSimpleEmbedding sqrtA []).length = 300 ∧
      ∀ e ∈ generateSimpleEmbedding sqrtA [], e = JsNum.nan) ∧
    (∀ (chunks : List TaggedChunk) (topK : Nat),
      ((VectorStore.addChunks sqrtA chunks).semanticSearch sqrtA [] topK none).length =
        min topK chunks.length ∧
      ∀ r ∈ (VectorStore.addChunks sqrtA chunks).semanticSearch sqrtA [] topK none,
        r.score = JsNum.nan) := by
  refine ⟨?_, ⟨generateSimpleEmbedding_length sqrtA [], ?_⟩, ?_⟩
  · intro query topK tagFilter
    simp only [VectorStore.semanticSearch, VectorStore.addChunks, List.map_nil,
      List.length_nil, List.range_zero, List.filterMap_nil, List.mergeSort_nil,
      List.take_nil]
  · intro e he
    rw [generateSimpleEmbedding_empty sqrtA hsqrt] at he
    exact List.eq_of_mem_replicate he
  · intro chunks topK
    exact ⟨semanticSearch_length_nofilter sqrtA chunks [] topK,
      semanticSearch_scores_nan sqrtA hsqrt chunks topK⟩

/-- C9 (witness): the amended theorem at the concrete square root `id`
(for which `id 0 = 0` holds). -/
theorem claim_C9_witness :
    (∀ (query : Str) (topK : Nat) (tagFilter : Option Str),
      (VectorStore.addChunks id []).semanticSearch id query topK tagFilter = []) ∧
    ((generateSimpleEmbedding id []).length = 300 ∧
      ∀ e ∈ generateSimpleEmbedding id [], e = JsNum.nan) ∧
    (∀ (chunks : List TaggedChunk) (topK : Nat),
      ((VectorStore.addChunks id chunks).semanticSearch id [] topK none).length =
        min topK chunks.length ∧
      ∀ r ∈ (VectorStore.addChunks id chunks).semanticSearch id [] topK none,
        r.score = JsNum.nan) :=
  claim_C9_empty_query id rfl

/-! ## Properties of the hybrid ranker -/

theorem jsReplaceFirst_head (pat s : Str) (hpat : pat ≠ []) :
    jsReplaceFirst (pat ++ s) pat [] = s := by
  have hpre : pat.isPrefixOf (pat ++ s) = true :=
    List.isPrefixOf_iff_prefix.mpr (List.prefix_append pat s)
  cases pat with
  | nil => exact absurd rfl hpat
  | cons p pt =>
    rw [List.cons_append]
    unfold jsReplaceFirst
    rw [← List.cons_append, if_pos hpre, List.nil_append, List.drop_left]

/-- Stripping and parsing a constructed chunk id round-trips. -/
theorem getChunkById_mkChunkId (store : VectorStore) (n : Nat) :
    store.getChunkById (mkChunkId n) =
      store.chunks.find? fun c => c.chunkId == n := by
  unfold VectorStore.getChunkById mkChunkId
  rw [jsReplaceFirst_head _ _ (by decide), parseIntNat_natToStr]

/-- Constructed chunk ids are injective. -/
theorem mkChunkId_injective : Function.Injective mkChunkId := by
  intro a b hab
  have ha := parseIntNat_natToStr a
  have hb := parseIntNat_natToStr b
  have ha' : parseIntNat (jsReplaceFirst (mkChunkId a) (str "chunk_") []) = some a := by
    unfold mkChunkId
    rw [jsReplaceFirst_head _ _ (by decide)]
    exact ha
  have hb' : parseIntNat (jsReplaceFirst (mkChunkId b) (str "chunk_") []) = some b := by
    unfold mkChunkId
    rw [jsReplaceFirst_head _ _ (by decide)]
    exact hb
  rw [hab, hb'] at ha'
  exact (Option.some_injective _ ha').symm

theorem hybridSearch_mem_structure (sqrtA : ℚ → ℚ) (hs : HybridSearcher)
    (query : Str) (topK : Nat) (alpha : ℚ) (tagFilter : Option Str)
    (r : SearchResult) (hr : r ∈ hs.search sqrtA query topK alpha tagFilter) :
    ∃ i, i < hs.vectorStore.chunks.length ∧
      (∀ t, tagFilter = some t →
        ((hs.vectorStore.chunks.getD i dTC).tags.contains t) = true) ∧
      ∃ chunk,
        hs.vectorStore.chunks.find?
            (fun c => c.chunkId == (hs.vectorStore.chunks.getD i dTC).chunkId) =
          some chunk ∧
        r.tags = chunk.tags ∧
        r.chunkId = mkChunkId (hs.vectorStore.chunks.getD i dTC).chunkId := by
  simp only [HybridSearcher.search, List.mem_filterMap] at hr
  obtain ⟨p, hp, hmap⟩ := hr
  rw [Option.map_eq_some'] at hmap
  obtain ⟨chunk, hchunk, hres⟩ := hmap
  have hp' := List.mem_of_mem_take hp
  have hp'' := (List.mergeSort_perm _ _).mem_iff.mp hp'
  simp only [List.mem_map] at hp''
  obtain ⟨i, hi, hpi⟩ := hp''
  simp only [List.mem_filter, List.mem_range] at hi
  refine ⟨i, hi.1, ?_, chunk, ?_, ?_, ?_⟩
  · intro t ht
    have := hi.2
    rw [ht] at this
    exact this
  · rw [← hpi] at hchunk
    rw [getChunkById_mkChunkId] at hchunk
    exact hchunk
  · rw [← hres]
  · rw [← hres, ← hpi]

/-- C6: with any tag filter, any `alpha` (in particular the extremes 0 and
1), any query and any `topK`, hybrid search never returns a chunk whose
tag set lacks the filter value; and when no stored chunk matches the
filter the result is empty.  (Uniqueness of stored chunk ids — the data
model's invariant — is assumed, since result rows are read back by id.) -/
theorem claim_C6_tag_filter (sqrtA logA : ℚ → ℚ) (store : VectorStore)
    (query : Str) (topK : Nat) (alpha : ℚ) (t : Str)
    (hnodup : (store.chunks.map fun c => c.chunkId).Nodup) :
    (∀ r ∈ (HybridSearcher.init logA store).search sqrtA query topK alpha (some t),
      t ∈ r.tags) ∧
    ((∀ c ∈ store.chunks, t ∉ c.tags) →
      (HybridSearcher.init logA store).search sqrtA query topK alpha (some t) = []) := by
  constructor
  · intro r hr
    obtain ⟨i, hi, hfilter, chunk, hfind, htags, _⟩ :=
      hybridSearch_mem_structure sqrtA (HybridSearcher.init logA store) query topK
        alpha (some t) r hr
    have hi' : i < store.chunks.length := hi
    have hgd : store.chunks.getD i dTC = store.chunks[i] :=
      List.getD_eq_getElem _ _ hi'
    have hci_mem : store.chunks.getD i dTC ∈ store.chunks := by
      rw [hgd]; exact List.getElem_mem hi'
    have hchunk_mem : chunk ∈ store.chunks := List.mem_of_find?_eq_some hfind
    have hbeq := List.find?_some hfind
    have hid : chunk.chunkId = (store.chunks.getD i dTC).chunkId := by
      simpa using hbeq
    have hchunk_eq : chunk = store.chunks.getD i dTC :=
      List.inj_on_of_nodup_map hnodup hchunk_mem hci_mem hid
    have hcont : ((store.chunks.getD i dTC).tags.contains t) = true := hfilter t rfl
    rw [htags, hchunk_eq]
    exact List.elem_iff.mp hcont
  · intro hno
    have hcand : (List.range store.chunks.length).filter
        (fun i => ((store.chunks.getD i dTC).tags.contains t)) = [] := by
      rw [List.filter_eq_nil_iff]
      intro i hi
      simp only [List.mem_range] at hi
      rw [List.getD_eq_getElem _ _ hi]
      intro hcontains
      exact hno _ (List.getElem_mem hi) (List.elem_iff.mp hcontains)
    simp only [HybridSearcher.search, HybridSearcher.init, hcand, List.map_nil,
      List.mergeSort_nil, List.take_nil, List.filterMap_nil]

/-- A concrete two-chunk store (one chunk tagged `<summary>`). -/
def wStore : VectorStore :=
  VectorStore.addChunks id [wChunk 0 [str "<summary>"], wChunk 1 []]

/-- C6 (witness): the tag-filter guarantee instantiated on a concrete
two-chunk store at `alpha = 0`. -/
theorem claim_C6_witness :
    (∀ r ∈ (HybridSearcher.init id wStore).search id (str "q") 2 0
        (some (str "<summary>")), str "<summary>" ∈ r.tags) ∧
    ((∀ c ∈ wStore.chunks, str "<summary>" ∉ c.tags) →
      (HybridSearcher.init id wStore).search id (str "q") 2 0
        (some (str "<summary>")) = []) :=
  claim_C6_tag_filter id id wStore (str "q") 2 0 (str "<summary>") (by decide)

theorem getChunkById_isSome_of_mem (store : VectorStore) (c : TaggedChunk)
    (hc : c ∈ store.chunks) :
    (store.getChunkById (mkChunkId c.chunkId)).isSome := by
  rw [getChunkById_mkChunkId, List.find?_isSome]
  exact ⟨c, hc, by simp⟩

theorem take_mergeSort_filterMap_ne_nil {α β : Type} (l : List α)
    (f : α → Option β) (le : α → α → Bool) (k : Nat)
    (hl : l ≠ []) (hk : 1 ≤ k) (hf : ∀ x ∈ l, (f x).isSome) :
    ((l.mergeSort le).take k).filterMap f ≠ [] := by
  have hpos : 0 < ((l.mergeSort le).take k).length := by
    rw [List.length_take, (List.mergeSort_perm _ _).length_eq]
    have := List.length_pos.mpr hl
    omega
  obtain ⟨x, hx⟩ := List.exists_mem_of_length_pos hpos
  have hxl : x ∈ l := (List.mergeSort_perm l le).mem_iff.mp (List.mem_of_mem_take hx)
  obtain ⟨b, hb⟩ := Option.isSome_iff_exists.mp (hf x hxl)
  have hmem : b ∈ ((l.mergeSort le).take k).filterMap f :=
    List.mem_filterMap.mpr ⟨x, hx, hb⟩
  intro hnil
  rw [hnil] at hmem
  exact absurd hmem (List.not_mem_nil b)

theorem hybridSearch_ne_nil (sqrtA logA : ℚ → ℚ) (store : VectorStore)
    (query : Str) (topK : Nat) (alpha : ℚ)
    (hne : store.chunks ≠ []) (htopK : 1 ≤ topK) :
    (HybridSearcher.init logA store).search sqrtA query topK alpha none ≠ [] := by
  simp only [HybridSearcher.search, HybridSearcher.init, List.filter_true]
  refine take_mergeSort_filterMap_ne_nil _ _ _ topK ?_ htopK ?_
  · intro hmap
    rcases List.map_eq_nil_iff.mp hmap with hrange
    rw [List.range_eq_nil] at hrange
    exact hne (List.length_eq_zero.mp hrange)
  · intro x hx
    simp only [List.mem_map, List.mem_range] at hx
    obtain ⟨i, hi, rfl⟩ := hx
    have hmem : store.chunks.getD i dTC ∈ store.chunks := by
      rw [List.getD_eq_getElem _ _ hi]
      exact List.getElem_mem hi
    obtain ⟨chunk, hchunk⟩ := Option.isSome_iff_exists.mp
      (getChunkById_isSome_of_mem store _ hmem)
    rw [hchunk]
    rfl

/-- C4: when the loop accumulates no relevant chunks, the controller
returns the raw results of one final hybrid search with the *original*
query; consequently — instantiating the searcher with the real hybrid
ranker over a non-empty corpus and `topK ≥ 1` — `relevantChunks` is never
empty. -/
theorem claim_C4_fallback_nonempty :
    (∀ (search : Str → List SearchResult) (llmG llmR : Str → Except Unit Str)
        (q : Str) (mi : Nat),
      (ragLoop search llmG llmR q mi mi
          { currentQuery := q, iteration := 0, acc := [], log := [] }).acc = [] →
      (correctiveRAGRetrieval search llmG llmR q mi).result.relevantChunks = search q) ∧
    (∀ (sqrtA logA : ℚ → ℚ) (store : VectorStore)
        (llmG llmR : Str → Except Unit Str) (query : Str) (topK maxIterations : Nat),
      store.chunks ≠ [] → 1 ≤ topK →
      (correctiveRAGRetrieval
          (fun q => (HybridSearcher.init logA store).search sqrtA q topK (1/2) none)
          llmG llmR query maxIterations).result.relevantChunks ≠ []) := by
  constructor
  · intro search llmG llmR q mi hacc
    simp [correctiveRAGRetrieval, hacc]
  · intro sqrtA logA store llmG llmR query topK maxIterations hne htopK
    simp only [correctiveRAGRetrieval]
    by_cases hacc :
        (ragLoop (fun q => (HybridSearcher.init logA store).search sqrtA q topK (1/2) none)
          llmG llmR query maxIterations maxIterations
          { currentQuery := query, iteration := 0, acc := [], log := [] }).acc.isEmpty
    · simp only [hacc, if_true]
      exact hybridSearch_ne_nil sqrtA logA store query topK (1/2) hne htopK
    · simp only [hacc, Bool.false_eq_true, if_false]
      intro h
      rw [h] at hacc
      exact hacc rfl

/-- C4 (witness): a concrete run over a non-empty two-chunk corpus with an
always-failing rewriter/grader transport still returns chunks. -/
theorem claim_C4_witness :
    (correctiveRAGRetrieval
        (fun q => (HybridSearcher.init id wStore).search id q 2 (1/2) none)
        failLLM failLLM (str "q") 2).result.relevantChunks ≠ [] :=
  claim_C4_fallback_nonempty.2 id id wStore failLLM failLLM (str "q") 2 2
    (by decide) (by decide)

theorem gradePass_nodup (llmG : Str → Except Unit Str) (query : Str) :
    ∀ (retrieved : List SearchResult) (acc : List SearchResult)
      (log : List GradeCall),
      ((acc.map fun c => c.chunkId).Nodup) →
      (((gradePass llmG query retrieved acc log).1.map fun c => c.chunkId).Nodup) := by
  intro retrieved
  induction retrieved with
  | nil => intro acc log h; exact h
  | cons chunk rest ih =>
    intro acc log h
    simp only [gradePass, List.foldl_cons]
    by_cases hacc : (gradeChunkRelevance llmG chunk.content query).relevant &&
        ((gradeChunkRelevance llmG chunk.content query).score == GradeScore.high ||
         (gradeChunkRelevance llmG chunk.content query).score == GradeScore.medium)
    · by_cases hdup : (acc.any fun c => c.chunkId == chunk.chunkId)
      · simp only [hacc, hdup, Bool.not_true, Bool.false_eq_true, if_false, if_true]
        exact ih _ _ h
      · simp only [hacc, hdup, Bool.not_false, if_true]
        refine ih _ _ ?_
        rw [List.map_append, List.nodup_append]
        refine ⟨h, by simp, ?_⟩
        intro x hx hx'
        simp only [List.map_cons, List.map_nil, List.mem_singleton] at hx'
        subst hx'
        simp only [List.mem_map] at hx
        obtain ⟨c, hc, hcid⟩ := hx
        have : (c.chunkId == chunk.chunkId) = false := by
          by_contra hcontra
          have : (acc.any fun c => c.chunkId == chunk.chunkId) = true :=
            List.any_eq_true.mpr ⟨c, hc, by
              cases hbe : c.chunkId == chunk.chunkId
              · exact absurd hbe hcontra
              · rfl⟩
          rw [this] at hdup
          exact hdup rfl
        rw [hcid] at this
        simp at this
    · simp only [hacc, Bool.false_eq_true, if_false]
      exact ih _ _ h

theorem ragLoop_nodup (search : Str → List SearchResult)
    (llmG llmR : Str → Except Unit Str) (query : Str) (maxIterations : Nat) :
    ∀ (fuel : Nat) (st : LoopState),
      ((st.acc.map fun c => c.chunkId).Nodup) →
      (((ragLoop search llmG llmR query maxIterations fuel st).acc.map
          fun c => c.chunkId).Nodup) := by
  intro fuel
  induction fuel with
  | zero => intro st h; exact h
  | succ fuel ih =>
    intro st h
    simp only [ragLoop]
    by_cases h1 : (search st.currentQuery).isEmpty
    · simp only [h1, if_true]
      exact ih _ (by simpa using h)
    · simp only [h1, Bool.false_eq_true, if_false]
      have hgp := gradePass_nodup llmG query (search st.currentQuery) st.acc st.log h
      by_cases h2 :
          3 ≤ (gradePass llmG query (search st.currentQuery) st.acc st.log).1.length
      · simp only [h2, if_true]
        exact hgp
      · simp only [h2, if_false]
        by_cases h3 : st.iteration + 1 < maxIterations
        · simp only [h3, if_true]
          exact ih _ (by simpa using hgp)
        · simp only [h3, if_false]
          exact ih _ (by simpa using hgp)

theorem nodup_getElem_inj {α : Type} (l : List α) (hl : l.Nodup) (i j : Nat)
    (hi : i < l.length) (hj : j < l.length) (h : l[i] = l[j]) : i = j := by
  have := @List.Nodup.get_inj_iff _ l hl ⟨i, hi⟩ ⟨j, hj⟩
  simp only [List.get_eq_getElem] at this
  exact congrArg Fin.val (this.mp h)

theorem map_chunkId_filterMap_sublist (l : List (Str × JsNum))
    (g : Str × JsNum → Option SearchResult)
    (hg : ∀ p r, g p = some r → r.chunkId = p.1) :
    ((l.filterMap g).map fun r => r.chunkId).Sublist (l.map fun p => p.1) := by
  induction l with
  | nil => simp
  | cons p rest ih =>
    rw [List.filterMap_cons]
    cases hgp : g p with
    | none =>
      simp only [List.map_cons]
      exact (ih).cons _
    | some r =>
      simp only [List.map_cons]
      rw [hg p r hgp]
      exact (ih).cons₂ _


theorem take_mergeSort_map_nodup {α β : Type} (l : List α) (f : α → β)
    (le : α → α → Bool) (k : Nat) (h : (l.map f).Nodup) :
    (((l.mergeSort le).take k).map f).Nodup := by
  rw [List.map_take]
  refine List.Nodup.sublist (List.take_sublist _ _) ?_
  exact ((List.mergeSort_perm l le).map f).nodup_iff.mpr h

theorem hybridSearch_nodup (sqrtA logA : ℚ → ℚ) (store : VectorStore)
    (query : Str) (topK : Nat) (alpha : ℚ) (tagFilter : Option Str)
    (hnodup : (store.chunks.map fun c => c.chunkId).Nodup) :
    (((HybridSearcher.init logA store).search sqrtA query topK alpha
        tagFilter).map fun r => r.chunkId).Nodup := by
  simp only [HybridSearcher.search, HybridSearcher.init]
  refine List.Nodup.sublist (map_chunkId_filterMap_sublist _ _ ?_) ?_
  · intro p r hpr
    rw [Option.map_eq_some'] at hpr
    obtain ⟨chunk, _, hres⟩ := hpr
    rw [← hres]
  · refine take_mergeSort_map_nodup _ _ _ _ ?_
    rw [List.map_map]
    refine List.Nodup.map_on ?_ (List.Nodup.filter _ (List.nodup_range _))
    intro i hi j hj hij
    simp only [List.mem_filter, List.mem_range] at hi hj
    simp only [Function.comp] at hij
    have hids := mkChunkId_injective hij
    rw [List.getD_eq_getElem _ _ hi.1, List.getD_eq_getElem _ _ hj.1] at hids
    refine nodup_getElem_inj _ hnodup i j (by simpa using hi.1) (by simpa using hj.1) ?_
    rw [List.getElem_map, List.getElem_map]
    exact hids

/-- C10: for every run over the real hybrid searcher (with the data
model's unique-chunk-id invariant), `totalFound` equals the length of
`relevantChunks`, and the returned `chunkId`s are pairwise distinct — on
the accepted path by the explicit dedup, on the fallback path because a
single hybrid search lists each candidate chunk at most once. -/
theorem claim_C10_result_invariants (sqrtA logA : ℚ → ℚ) (store : VectorStore)
    (llmG llmR : Str → Except Unit Str) (query : Str) (topK maxIterations : Nat)
    (hnodup : (store.chunks.map fun c => c.chunkId).Nodup) :
    (correctiveRAGRetrieval
        (fun q => (HybridSearcher.init logA store).search sqrtA q topK (1/2) none)
        llmG llmR query maxIterations).result.totalFound =
      (correctiveRAGRetrieval
        (fun q => (HybridSearcher.init logA store).search sqrtA q topK (1/2) none)
        llmG llmR query maxIterations).result.relevantChunks.length ∧
    ((correctiveRAGRetrieval
        (fun q => (HybridSearcher.init logA store).search sqrtA q topK (1/2) none)
        llmG llmR query maxIterations).result.relevantChunks.map
          fun r => r.chunkId).Nodup := by
  constructor
  · rfl
  · simp only [correctiveRAGRetrieval]
    by_cases hacc :
        (ragLoop (fun q => (HybridSearcher.init logA store).search sqrtA q topK (1/2) none)
          llmG llmR query maxIterations maxIterations
          { currentQuery := query, iteration := 0, acc := [], log := [] }).acc.isEmpty
    · simp only [hacc, if_true]
      exact hybridSearch_nodup sqrtA logA store query topK (1/2) none hnodup
    · simp only [hacc, Bool.false_eq_true, if_false]
      exact ragLoop_nodup _ llmG llmR query maxIterations maxIterations _ (by simp)

/-- C10 (witness): the invariants instantiated on a concrete two-chunk
store and an always-failing LLM transport. -/
theorem claim_C10_witness :
    (correctiveRAGRetrieval
        (fun q => (HybridSearcher.init id wStore).search id q 2 (1/2) none)
        failLLM failLLM (str "q") 2).result.totalFound =
      (correctiveRAGRetrieval
        (fun q => (HybridSearcher.init id wStore).search id q 2 (1/2) none)
        failLLM failLLM (str "q") 2).result.relevantChunks.length ∧
    ((correctiveRAGRetrieval
        (fun q => (HybridSearcher.init id wStore).search id q 2 (1/2) none)
        failLLM failLLM (str "q") 2).result.relevantChunks.map
          fun r => r.chunkId).Nodup :=
  claim_C10_result_invariants id id wStore failLLM failLLM (str "q") 2 2 (by decide)

/-- C8 (witness): the invariant evaluated on a concrete chunk produced by
`chunkDocument`. -/
theorem claim_C8_witness :
    ({ header := str "Chunk 1", content := str "|a|", charCount := 3,
       containsTable := false } : Chunk).charCount =
      ({ header := str "Chunk 1", content := str "|a|", charCount := 3,
         containsTable := false } : Chunk).content.length :=
  claim_C8_charCount_invariant c2Input c2Cfg _ (by decide)
